import Mathlib

/-!
Verification of the staged RSS-feed processing pipeline
(keyword filter, relevance/categorization stage executors with a
content-addressed cache, per-category ranking gate, orchestrator).

Python strings are modelled as `List Char`; Python dictionaries of
articles are modelled as a record with optional fields (a missing key is
`none`).  The sqlite cache and the LLM backend are external
collaborators and are modelled as oracle parameters; a raised storage
exception is the `err` constructor of `StoreResult`.
-/

namespace RSS

/-- A Python string, modelled as its list of characters. -/
abbrev Str := List Char

/-- Character list of a Lean string literal. -/
def str (s : String) : Str := s.data

/-- Python lowercasing (per-character, as for ASCII). -/
def lower (s : Str) : Str := s.map Char.toLower

/-- The Python substring test `needle in hay`. -/
def strIn (needle : Str) : Str → Bool
  | [] => needle.isEmpty
  | c :: t => needle.isPrefixOf (c :: t) || strIn needle t

theorem isPrefixOf_append_self (n y : Str) : n.isPrefixOf (n ++ y) = true := by
  induction n with
  | nil => cases y <;> rfl
  | cons c t ih => simp [List.isPrefixOf, ih]

theorem strIn_of_isPrefixOf {n h : Str} (hp : n.isPrefixOf h = true) :
    strIn n h = true := by
  cases h with
  | nil =>
    cases n with
    | nil => rfl
    | cons c t => simp [List.isPrefixOf] at hp
  | cons c t => simp [strIn, hp]

theorem strIn_append_middle (n : Str) : ∀ (x y : Str), strIn n (x ++ (n ++ y)) = true := by
  intro x
  induction x with
  | nil =>
    intro y
    exact strIn_of_isPrefixOf (isPrefixOf_append_self n y)
  | cons c t ih =>
    intro y
    simp [List.cons_append, strIn, ih y]

/-- An article dictionary: the fetched fields plus the annotation fields
that stages may add.  A `none` field models an absent dictionary key. -/
structure Article where
  title : Option Str
  content : Option Str
  summary : Option Str
  link : Option Str
  match_score : Option Nat
  category : Option Str
  category_justification : Option Str
  relevance_reason : Option Str
deriving DecidableEq

/-- An article with no fields set, for building concrete test articles. -/
def blankArticle : Article :=
  { title := none, content := none, summary := none, link := none,
    match_score := none, category := none, category_justification := none,
    relevance_reason := none }

/-- Python `article.get(key, default)`. -/
def pyGet (v : Option Str) (d : Str) : Str := v.getD d

/-- Python truthiness of `article.get(key)`: false for a missing key and
for the empty string. -/
def truthy : Option Str → Bool
  | none => false
  | some s => !s.isEmpty

/-- One entry of the `CATEGORIES` taxonomy table from `config.py`
(the unused emoji field is omitted). -/
structure CategoryDef where
  name : Str
  keywords : List Str
  url_patterns : List Str
deriving DecidableEq

/-- The `CATEGORIES` table of `config.py`, in declaration order. -/
def CATEGORIES : List CategoryDef :=
  [ { name := str "TOOLS_AND_FRAMEWORKS",
      keywords := [str "agent", str "mcp", str "framework", str "sdk",
        str "platform", str "tool", str "api", str "langchain",
        str "autogen", str "crewai", str "bedrock", str "workflow engine"],
      url_patterns := [str "langchain.dev", str "mistral", str "bedrock",
        str "huggingface", str "github"] },
    { name := str "MODELS_AND_INFRASTRUCTURE",
      keywords := [str "llm", str "language model", str "gpt",
        str "transformer", str "training", str "fine-tuning",
        str "infrastructure", str "scaling", str "deployment",
        str "embedding", str "vector", str "inference", str "optimization"],
      url_patterns := [str "openai", str "huggingface", str "anthropic",
        str "arxiv", str "microsoft", str "aws"] },
    { name := str "ENTERPRISE_USE_CASES",
      keywords := [str "enterprise", str "production", str "deployment",
        str "integration", str "solution", str "business case",
        str "case study", str "roi", str "customer", str "automation"],
      url_patterns := [str "aws.amazon.com", str "cloud.google.com",
        str "case-study", str "blog"] },
    { name := str "INDUSTRY_AND_MARKET",
      keywords := [str "market", str "startup", str "funding", str "ipo",
        str "partnership", str "acquisition", str "industry", str "trend",
        str "valuation", str "launch"],
      url_patterns := [str "venturebeat", str "techcrunch", str "forbes",
        str "businessinsider"] } ]

/-- `text = f"{title} {content} {summary}"` built from the lowercased
fields, as in `keyword_filter.filter_articles` / `assign_category`. -/
def articleText (a : Article) : Str :=
  lower (pyGet a.title []) ++ str " " ++ lower (pyGet a.content [])
    ++ str " " ++ lower (pyGet a.summary [])

/-- The lowercased link field (empty for a missing key). -/
def articleUrl (a : Article) : Str := lower (pyGet a.link [])

/-- Number of keywords of one taxonomy category matching the text. -/
def catKeywordMatches (c : CategoryDef) (text : Str) : Nat :=
  (c.keywords.filter (fun k => strIn (lower k) text)).length

/-- Number of url patterns of one taxonomy category matching the url. -/
def catUrlMatches (c : CategoryDef) (url : Str) : Nat :=
  (c.url_patterns.filter (fun p => strIn (lower p) url)).length

/-- Matches of one category against an article (each keyword and each
url pattern counting once), as accumulated by `filter_articles`. -/
def catMatches (c : CategoryDef) (a : Article) : Nat :=
  catKeywordMatches c (articleText a) + catUrlMatches c (articleUrl a)

/-- `total_matches` accumulated over all categories in `filter_articles`. -/
def totalMatches (a : Article) : Nat :=
  (CATEGORIES.map (fun c => catMatches c a)).sum

/-- `len(category_matches)`: the number of distinct categories with at
least one keyword or url-pattern match (the category names are the
distinct keys of the `CATEGORIES` dict, so the set size is the number of
categories with a positive match count). -/
def categoriesMatched (a : Article) : Nat :=
  (CATEGORIES.filter (fun c => decide (0 < catMatches c a))).length

/-- The skip test at the top of `filter_articles`: an article is skipped
unless it has a truthy title and a truthy content or summary. -/
def hasRequiredFields (a : Article) : Bool :=
  truthy a.title && (truthy a.content || truthy a.summary)

/-- The retention test of `filter_articles`: keep the article if it has
matches from at least one category or two or more total matches. -/
def keeps (a : Article) : Bool :=
  hasRequiredFields a &&
    (decide (1 ≤ categoriesMatched a) || decide (2 ≤ totalMatches a))

/-- Annotate the article: its match_score entry becomes the total
match count. -/
def setScore (a : Article) : Article :=
  { a with match_score := some (totalMatches a) }

/-- The list of surviving, score-annotated articles, in input order
(the loop body of `filter_articles` before the sort). -/
def survivors (articles : List Article) : List Article :=
  articles.filterMap (fun a => if keeps a then some (setScore a) else none)

/-- The sort key of `filter_articles`: the match_score entry, with 0
for a missing key. -/
def scoreOf (a : Article) : Nat := a.match_score.getD 0

/-- Insertion step of the stable descending sort: the new element goes
before the first element whose score is less than or equal to its own
(elements inserted later came earlier in the input, preserving ties). -/
def insertDesc (x : Article) : List Article → List Article
  | [] => [x]
  | y :: ys => if scoreOf y ≤ scoreOf x then x :: y :: ys else y :: insertDesc x ys

/-- Stable descending sort by `match_score`, modelling the stable Python
`filtered_articles.sort(key=..., reverse=True)` (a stable sort into
descending score order is unique, so any stable sorting algorithm is an
exact model). -/
def sortDesc : List Article → List Article
  | [] => []
  | x :: xs => insertDesc x (sortDesc xs)

/-- `keyword_filter.filter_articles`: keep matching articles, annotate
each with its match score, and stably sort by score descending. -/
def filter_articles (articles : List Article) : List Article :=
  sortDesc (survivors articles)

/-! ### `assign_category` (keyword_filter.py) -/

/-- The per-category score of `assign_category`: one point per keyword
match against the text, two points per url-pattern match. -/
def catScore (c : CategoryDef) (a : Article) : Nat :=
  catKeywordMatches c (articleText a) + 2 * catUrlMatches c (articleUrl a)

/-- `max(scores.values())`.  The fold over the (all-nonnegative) scores
with initial value 0 agrees with the Python max of the nonempty list. -/
def maxCatScore (a : Article) : Nat :=
  (CATEGORIES.map (fun c => catScore c a)).foldl Nat.max 0

/-- `keyword_filter.assign_category`: the first category (in the
declaration order of the `CATEGORIES` dict) reaching the maximal score,
or `INDUSTRY_AND_MARKET` when the maximal score is zero. -/
def assign_category (a : Article) : Str :=
  let m := maxCatScore a
  if 0 < m then
    match CATEGORIES.find? (fun c => catScore c a == m) with
    | some c => c.name
    | none => str "INDUSTRY_AND_MARKET"
  else str "INDUSTRY_AND_MARKET"

/-! ### `RankingAgent.rank_articles` (ranking.py)

The backend call together with the response parsing is modelled by an
oracle value of type `Option (List Int)`: `some idxs` means the LLM call
succeeded, the stripped response started with a bracket and ended with
one, and `json.loads` produced the integer list `idxs`; `none` covers
every other case (the call raised, the text was not bracketed, parsing
raised, or a list entry was not comparable to an int). -/

/-- Python list indexing `l[i]`, returning `none` where Python raises
`IndexError`: a nonnegative index is in range below the length, a
negative index counts from the end down to `-len(l)`. -/
def pyIdx {α : Type} (l : List α) (i : Int) : Option α :=
  if 0 ≤ i then l[i.toNat]?
  else if 0 ≤ i + l.length then l[(i + l.length).toNat]? else none

/-- `RankingAgent.rank_articles`: pass through a list no longer than
`max_articles`; otherwise truncate the returned index list to
`max_articles`, keep the entries below the length, and select those
positions; whenever the backend oracle is `none` or an `IndexError`
escapes the comprehension, the `except` clause yields the first
`max_articles` articles. -/
def rank_articles {α : Type} (articles : List α) (response : Option (List Int))
    (max_articles : Nat) : List α :=
  if articles.length ≤ max_articles then articles
  else
    match response with
    | some indices =>
      let taken := indices.take max_articles
      let kept := taken.filter (fun i => decide (i < (articles.length : Int)))
      if kept.all (fun i => decide (-(articles.length : Int) ≤ i)) then
        kept.filterMap (fun i => pyIdx articles i)
      else articles.take max_articles
    | none => articles.take max_articles

/-- The ranking-stage contract exactly as the specification words it
(for comparison with `rank_articles`): indices outside `0..len-1` are
discarded, the output is the documents at the valid indices truncated to
`max_articles` and never padded, and a failed backend call yields the
first `max_articles` documents. -/
def rank_articles_specContract {α : Type} (articles : List α)
    (response : Option (List Int)) (max_articles : Nat) : List α :=
  if articles.length ≤ max_articles then articles
  else
    match response with
    | some indices =>
      let valid := indices.filter
        (fun i => decide (0 ≤ i) && decide (i < (articles.length : Int)))
      (valid.take max_articles).filterMap (fun i => articles[i.toNat]?)
    | none => articles.take max_articles

/-! ### The per-category ranking gate of `run_pipeline` (pipeline.py) -/

/-- The ranking loop of `run_pipeline` over the category buckets:
a bucket with more than 5 articles is handed to the ranking agent
(flag `true`), any other bucket is kept unchanged (flag `false`) and
`ranking_calls_saved` is incremented.  Returns the final buckets with
their invocation flags, and the saved-calls counter. -/
def rankingStage {α : Type} (backend : List α → Option (List Int)) :
    List (List α) → List (List α × Bool) × Nat
  | [] => ([], 0)
  | b :: bs =>
    let rest := rankingStage backend bs
    if 5 < b.length then
      ((rank_articles b (backend b) 5, true) :: rest.1, rest.2)
    else
      ((b, false) :: rest.1, rest.2 + 1)

/-! ### The orchestrator (pipeline.py) -/

/-- The stages of `run_pipeline`, in order. -/
inductive StageTag where
  | ingest
  | keywordFilter
  | relevanceStage
  | overview
  | categorize
  | ranking
  | summarize
  | distribute
deriving DecidableEq

/-- The control flow of `run_pipeline` as the trace of stages it
invokes: `fetched` is the ingested article list and `relevanceAgent`
models `filter_relevant_articles` (backend-dependent).  Each of the
three emptiness checks returns from the function (a normal no-op
completion, not an exception), so the trace simply ends there. -/
def run_pipeline (fetched : List Article)
    (relevanceAgent : List Article → List Article) : List StageTag :=
  if fetched.isEmpty then [.ingest]
  else
    let kf := filter_articles fetched
    if kf.isEmpty then [.ingest, .keywordFilter]
    else
      let rel := relevanceAgent kf
      if rel.isEmpty then [.ingest, .keywordFilter, .relevanceStage]
      else
        [.ingest, .keywordFilter, .relevanceStage, .overview, .categorize,
         .ranking, .summarize, .distribute]

/-! ### Cache keys (categorization.py / relevance.py) -/

/-- Result of a call into the sqlite storage layer: `ok` is a normal
return, `err` a raised storage exception. -/
inductive StoreResult (α : Type) where
  | ok (val : α)
  | err
deriving DecidableEq

/-- The summary field if that key is present (even when empty),
otherwise the content field or the empty string — the nested get
expression both stage executors feed into the key. -/
def rawStageContent (a : Article) : Str :=
  match a.summary with
  | some s => s
  | none => pyGet a.content []

/-- The content component of the relevance/categorization cache key:
the summary-or-content truncated to its first 500 characters. -/
def stageSummary (a : Article) : Str := (rawStageContent a).take 500

/-- The digest preimage `f"{stage}:{title}:{content}"` of
`_get_cache_key` (the md5 digest itself is kept abstract; the cache
oracles below are keyed by this preimage). -/
def cacheKeyText (stage title content : Str) : Str :=
  stage ++ str ":" ++ title ++ str ":" ++ content

/-- Cache-key preimage of `CategorizationAgent._get_cache_key` applied
as in `categorize_articles`. -/
def catCacheKey (a : Article) : Str :=
  cacheKeyText (str "category") (pyGet a.title []) (stageSummary a)

/-- Cache-key preimage of `RelevanceAgent._get_cache_key` applied as in
`RelevanceAgent.filter_articles`. -/
def relCacheKey (a : Article) : Str :=
  cacheKeyText (str "relevance") (pyGet a.title []) (stageSummary a)

/-! ### `CategorizationAgent.categorize_articles` (categorization.py)

Oracles: `lookup` models `_check_cache` (an `err` is a storage
exception raised during the lookup); `backend` models the LLM call
followed by `json.loads` — `none` when either raises, otherwise the
parsed dict as its optional `category` and `justification` entries;
`save` models `_save_cache`. -/

/-- `list(CATEGORIES.keys())`, the valid category values. -/
def categoryNames : List Str := CATEGORIES.map (fun c => c.name)

/-- The fallback category used for missing, invalid and failed
categorizations. -/
def FALLBACK_CATEGORY : Str := str "INDUSTRY_AND_MARKET"

/-- Processing of one article by `categorize_articles`.  Returns the
annotated article, whether a cache hit was recorded, and whether the
backend was invoked.  The cache lookup happens outside the
`try`/`except`, so a lookup exception propagates (`err`); the backend
call and the cache write are inside it, so their failures annotate the
article with the fallback category and processing continues. -/
def categorizeOne (lookup : Str → StoreResult (Option (Str × Str)))
    (backend : Article → Option (Option Str × Option Str))
    (save : Str → Str → Str → StoreResult Unit)
    (a : Article) : StoreResult (Article × Bool × Bool) :=
  match lookup (catCacheKey a) with
  | .err => .err
  | .ok (some (cat, just)) =>
    .ok ({ a with
           category := some cat
           category_justification := some just },
      true, false)
  | .ok none =>
    match backend a with
    | none =>
      .ok ({ a with
             category := some FALLBACK_CATEGORY
             category_justification := some (str "Error in categorization") },
        false, true)
    | some (catOpt, justOpt) =>
      let cat0 := catOpt.getD FALLBACK_CATEGORY
      let justification := justOpt.getD (str "No justification provided")
      let category := if categoryNames.contains cat0 then cat0
                      else FALLBACK_CATEGORY
      match save (catCacheKey a) category justification with
      | .err =>
        .ok ({ a with
               category := some FALLBACK_CATEGORY
               category_justification := some (str "Error in categorization") },
          false, true)
      | .ok _ =>
        .ok ({ a with
               category := some category
               category_justification := some justification },
          false, true)

/-- The loop of `categorize_articles` over the batch: a storage
exception raised by a lookup propagates out of the loop and aborts the
batch (`err`). -/
def categorizeBatch (lookup : Str → StoreResult (Option (Str × Str)))
    (backend : Article → Option (Option Str × Option Str))
    (save : Str → Str → Str → StoreResult Unit) :
    List Article → StoreResult (List Article)
  | [] => .ok []
  | a :: rest =>
    match categorizeOne lookup backend save a with
    | .err => .err
    | .ok (a2, _, _) =>
      match categorizeBatch lookup backend save rest with
      | .err => .err
      | .ok l => .ok (a2 :: l)

/-- Processing of one article by `RelevanceAgent.filter_articles`.
Returns `some` annotated article when it is kept, `none` when filtered
out or degraded by a caught failure, plus the hit flag and the
backend-invocation flag, with the same `try`/`except` placement as
categorization. -/
def relevanceOne (lookup : Str → StoreResult (Option (Bool × Str)))
    (backend : Article → Option (Option Bool × Option Str))
    (save : Str → Bool → Str → StoreResult Unit)
    (a : Article) : StoreResult (Option Article × Bool × Bool) :=
  match lookup (relCacheKey a) with
  | .err => .err
  | .ok (some (isRel, reason)) =>
    .ok (if isRel then some { a with relevance_reason := some reason } else none,
      true, false)
  | .ok none =>
    match backend a with
    | none => .ok (none, false, true)
    | some (relOpt, reasonOpt) =>
      let isRel := relOpt.getD false
      let reason := reasonOpt.getD (str "No reason provided")
      match save (relCacheKey a) isRel reason with
      | .err => .ok (none, false, true)
      | .ok _ =>
        .ok (if isRel then some { a with relevance_reason := some reason }
             else none, false, true)

/-! ### `CacheTracker` (cache_utils.py)

The Python counter accumulates the IEEE-754 binary64 float
`cost_per_call` with repeated `+=`.  Finite binary64 values are exact
dyadic rationals `m / 2^e` with a mantissa of at most 53 significant
bits, and the IEEE sum of two such values is the exact rational sum
rounded back to 53 significant bits (round to nearest, ties to even).
The model below carries the exact values and performs exactly that
rounding on every addition; the bounded exponent range of binary64
(overflow and subnormals) is not modelled, which is irrelevant at the
magnitudes a cost tracker sees. -/

/-- Number of binary digits of a natural number (0 for 0), by fuelled
halving; fuel `n` suffices since a number has at most `n` digits. -/
def bitLenAux : Nat → Nat → Nat
  | 0, _ => 0
  | fuel + 1, n => if n = 0 then 0 else bitLenAux fuel (n / 2) + 1

def bitLen (n : Nat) : Nat := bitLenAux n n

/-- Round `n / 2^s` to the nearest integer, ties to even. -/
def roundHalfEven (n : Nat) (s : Nat) : Nat :=
  let q := n / 2 ^ s
  let r := n % 2 ^ s
  let half := 2 ^ (s - 1)
  if s = 0 then n
  else if r < half then q
  else if half < r then q + 1
  else if q % 2 = 0 then q else q + 1

/-- The exact value of a finite binary64 float: `m / 2^e`.  The
representation is not required to be canonical; `toRat` gives the
value. -/
structure Dyadic where
  m : Int
  e : Nat
deriving DecidableEq

/-- The rational value of a `Dyadic`. -/
def Dyadic.toRat (d : Dyadic) : Rat := (d.m : Rat) / 2 ^ d.e

/-- Round a mantissa to at most 53 significant bits (ties to even):
returns the rounded mantissa and the number of bits shifted away. -/
def fpRoundM (M : Int) : Int × Nat :=
  let bits := bitLen M.natAbs
  if bits ≤ 53 then (M, 0)
  else
    let s := bits - 53
    let m := roundHalfEven M.natAbs s
    (if M < 0 then -(m : Int) else (m : Int), s)

/-- IEEE binary64 addition on exact values: the exact sum, rounded to
53 significant bits with round-to-nearest-even. -/
def fpAdd (x y : Dyadic) : Dyadic :=
  let e := Nat.max x.e y.e
  let M := x.m * 2 ^ (e - x.e) + y.m * 2 ^ (e - y.e)
  let p := fpRoundM M
  if p.2 ≤ e then ⟨p.1, e - p.2⟩ else ⟨p.1 * 2 ^ (p.2 - e), 0⟩

structure CacheTracker where
  cache_hits : Nat
  cache_misses : Nat
  cost_per_call : Dyadic
  estimated_savings : Dyadic
deriving DecidableEq

/-- `CacheTracker.__init__`: zero counters and zero savings.  (The
Python default cost literal `0.01` denotes the binary64 value
`5764607523034235 / 2^59`, not the rational `1/100`.) -/
def CacheTracker.init (cost : Dyadic) : CacheTracker :=
  { cache_hits := 0, cache_misses := 0, cost_per_call := cost,
    estimated_savings := ⟨0, 0⟩ }

/-- `record_hit`: one more hit, and the float `+=` adds the per-call
cost with IEEE rounding. -/
def CacheTracker.recordHit (t : CacheTracker) : CacheTracker :=
  { t with
    cache_hits := t.cache_hits + 1
    estimated_savings := fpAdd t.estimated_savings t.cost_per_call }

/-- `record_miss`: one more miss, savings unchanged. -/
def CacheTracker.recordMiss (t : CacheTracker) : CacheTracker :=
  { t with cache_misses := t.cache_misses + 1 }

/-- A call sequence against one tracker. -/
inductive CacheOp where
  | hit
  | miss
deriving DecidableEq

/-- Replay a sequence of `record_hit`/`record_miss` calls. -/
def applyOps (t : CacheTracker) : List CacheOp → CacheTracker
  | [] => t
  | .hit :: ops => applyOps t.recordHit ops
  | .miss :: ops => applyOps t.recordMiss ops

/-- The number of `record_hit` calls in a sequence. -/
def countHits : List CacheOp → Nat
  | [] => 0
  | .hit :: ops => countHits ops + 1
  | .miss :: ops => countHits ops

/-- The float accumulation of `n` additions of `c`, starting from 0:
the value `estimated_savings` holds after `n` hits. -/
def fpIterAdd (c : Dyadic) : Nat → Dyadic
  | 0 => ⟨0, 0⟩
  | n + 1 => fpAdd (fpIterAdd c n) c

/-! ## Lemmas about the stable descending sort -/

theorem insertDesc_perm (x : Article) (l : List Article) :
    (insertDesc x l).Perm (x :: l) := by
  induction l with
  | nil => exact List.Perm.refl _
  | cons y ys ih =>
    rw [insertDesc]
    split
    · exact List.Perm.refl _
    · exact (ih.cons y).trans (List.Perm.swap x y ys)

theorem mem_insertDesc {b x : Article} {l : List Article} :
    b ∈ insertDesc x l ↔ b = x ∨ b ∈ l := by
  rw [(insertDesc_perm x l).mem_iff, List.mem_cons]

theorem sortDesc_perm (l : List Article) : (sortDesc l).Perm l := by
  induction l with
  | nil => exact List.Perm.refl _
  | cons x xs ih => exact (insertDesc_perm x (sortDesc xs)).trans (ih.cons x)

theorem insertDesc_sorted {x : Article} {l : List Article}
    (h : l.Pairwise (fun a b => scoreOf b ≤ scoreOf a)) :
    (insertDesc x l).Pairwise (fun a b => scoreOf b ≤ scoreOf a) := by
  induction l with
  | nil => simp [insertDesc]
  | cons y ys ih =>
    rw [List.pairwise_cons] at h
    rw [insertDesc]
    split
    · rename_i hyx
      rw [List.pairwise_cons]
      refine ⟨?_, List.pairwise_cons.mpr h⟩
      intro b hb
      rcases List.mem_cons.mp hb with hb | hb
      · exact hb ▸ hyx
      · exact Nat.le_trans (h.1 b hb) hyx
    · rename_i hyx
      rw [List.pairwise_cons]
      refine ⟨?_, ih h.2⟩
      intro b hb
      rcases mem_insertDesc.mp hb with hb | hb
      · exact hb ▸ Nat.le_of_not_le hyx
      · exact h.1 b hb

theorem sortDesc_sorted (l : List Article) :
    (sortDesc l).Pairwise (fun a b => scoreOf b ≤ scoreOf a) := by
  induction l with
  | nil => simp [sortDesc]
  | cons x xs ih => exact insertDesc_sorted ih

theorem filter_insertDesc_pos {x : Article} {s : Nat} (l : List Article)
    (hx : scoreOf x = s) :
    (insertDesc x l).filter (fun a => scoreOf a == s)
      = x :: l.filter (fun a => scoreOf a == s) := by
  induction l with
  | nil => simp [insertDesc, List.filter_cons, hx]
  | cons y ys ih =>
    rw [insertDesc]
    split
    · simp [List.filter_cons, hx]
    · rename_i hyx
      have hy : (scoreOf y == s) = false := by
        simp only [beq_eq_false_iff_ne, ne_eq]
        omega
      simp [List.filter_cons, hy, ih]

theorem filter_insertDesc_neg {x : Article} {s : Nat} (l : List Article)
    (hx : scoreOf x ≠ s) :
    (insertDesc x l).filter (fun a => scoreOf a == s)
      = l.filter (fun a => scoreOf a == s) := by
  have hxb : (scoreOf x == s) = false := by
    simp only [beq_eq_false_iff_ne, ne_eq]
    exact hx
  induction l with
  | nil => simp [insertDesc, List.filter_cons, hxb]
  | cons y ys ih =>
    rw [insertDesc]
    split
    · simp [List.filter_cons, hxb]
    · simp [List.filter_cons, ih]

theorem sortDesc_filter_score (l : List Article) (s : Nat) :
    (sortDesc l).filter (fun a => scoreOf a == s)
      = l.filter (fun a => scoreOf a == s) := by
  induction l with
  | nil => rfl
  | cons x xs ih =>
    rw [sortDesc]
    by_cases hx : scoreOf x = s
    · rw [filter_insertDesc_pos (sortDesc xs) hx, ih, List.filter_cons]
      simp [hx]
    · rw [filter_insertDesc_neg (sortDesc xs) hx, ih, List.filter_cons]
      have hxb : (scoreOf x == s) = false := by
        simp only [beq_eq_false_iff_ne, ne_eq]
        exact hx
      simp [hxb]

theorem totalMatches_setScore (a : Article) :
    totalMatches (setScore a) = totalMatches a := rfl

theorem mem_survivors {a : Article} {articles : List Article} :
    a ∈ survivors articles ↔
      ∃ b ∈ articles, keeps b = true ∧ a = setScore b := by
  rw [survivors, List.mem_filterMap]
  constructor
  · rintro ⟨b, hb, hfb⟩
    by_cases hk : keeps b
    · rw [if_pos hk] at hfb
      exact ⟨b, hb, hk, (Option.some_inj.mp hfb).symm⟩
    · rw [if_neg hk] at hfb
      exact absurd hfb (by simp)
  · rintro ⟨b, hb, hk, ha⟩
    exact ⟨b, hb, by rw [if_pos hk, ha]⟩

/-- C5.  For every input list, the output of the keyword prefilter is sorted
by match score descending, every surviving article carries its match
score in `match_score`, and the sort is stable: for every score value,
the survivors holding that score appear in the output exactly in their
pre-sort order (`survivors` lists them in input order). -/
theorem filter_articles_sorted_stable (articles : List Article) :
    (filter_articles articles).Pairwise (fun a b => scoreOf b ≤ scoreOf a)
    ∧ (∀ a ∈ filter_articles articles, a.match_score = some (totalMatches a))
    ∧ (∀ s : Nat, (filter_articles articles).filter (fun a => scoreOf a == s)
        = (survivors articles).filter (fun a => scoreOf a == s))
    ∧ (filter_articles articles).Perm (survivors articles) := by
  refine ⟨sortDesc_sorted _, ?_, fun s => sortDesc_filter_score _ s, sortDesc_perm _⟩
  intro a ha
  have ha2 : a ∈ survivors articles := (sortDesc_perm _).mem_iff.mp ha
  obtain ⟨b, _, _, hab⟩ := mem_survivors.mp ha2
  rw [hab]
  rfl

/-- Concrete articles for the C5 witness: scores 1, 2 and 1. -/
def w5a : Article :=
  { blankArticle with title := some (str "a"), content := some (str "llm") }

def w5b : Article :=
  { blankArticle with title := some (str "b"), content := some (str "llm agent") }

def w5c : Article :=
  { blankArticle with title := some (str "c"), content := some (str "gpt") }

/-- Witness for C5 at a concrete list: the tie between the score-1
articles keeps their input order. -/
theorem filter_articles_sorted_stable_witness :
    (filter_articles [w5a, w5b, w5c]).Pairwise (fun a b => scoreOf b ≤ scoreOf a)
    ∧ (filter_articles [w5a, w5b, w5c]).filter (fun a => scoreOf a == 1)
        = (survivors [w5a, w5b, w5c]).filter (fun a => scoreOf a == 1)
    ∧ (filter_articles [w5a, w5b, w5c]).map (fun a => a.match_score)
        = [some 2, some 1, some 1] := by
  have h := filter_articles_sorted_stable [w5a, w5b, w5c]
  exact ⟨h.1, h.2.2.1 1, by decide⟩

/-! ## C4: the retention rule of the keyword prefilter -/

theorem strIn_of_middle (n h x y : Str) (he : h = x ++ (n ++ y)) :
    strIn n h = true := he ▸ strIn_append_middle n x y

/-- C4.  For every article with a truthy title and truthy content or
summary, the prefilter retains it iff it has matches from at least one
taxonomy category or two or more total matches; and retention is
monotonic in match count: appending any taxonomy keyword to the content
of an article that failed retention makes it pass. -/
theorem keyword_retention (a : Article) (h1 : truthy a.title = true)
    (h2 : truthy a.content = true ∨ truthy a.summary = true) :
    (keeps a = true ↔ (1 ≤ categoriesMatched a ∨ 2 ≤ totalMatches a))
    ∧ (∀ c ∈ CATEGORIES, ∀ k ∈ c.keywords, keeps a = false →
        keeps { a with content := some (pyGet a.content [] ++ str " " ++ k) }
          = true) := by
  have hreq : hasRequiredFields a = true := by
    rw [hasRequiredFields, h1]
    rcases h2 with h2 | h2 <;> simp [h2]
  constructor
  · rw [keeps, hreq]
    simp
  · intro c hc k hk _
    set a2 : Article :=
      { a with content := some (pyGet a.content [] ++ str " " ++ k) } with ha2
    have htext : strIn (lower k) (articleText a2) = true := by
      apply strIn_of_middle (lower k) _
        (lower (pyGet a.title []) ++ (str " " ++ (lower (pyGet a.content [])
          ++ (lower (str " ")))))
        (str " " ++ lower (pyGet a.summary []))
      simp [articleText, ha2, pyGet, lower, List.map_append, List.append_assoc]
    have hkm : 0 < catKeywordMatches c (articleText a2) := by
      rw [catKeywordMatches, List.length_pos]
      exact List.ne_nil_of_mem (List.mem_filter.mpr ⟨hk, htext⟩)
    have hcm : 0 < catMatches c a2 := by
      rw [catMatches]
      omega
    have hcats : 1 ≤ categoriesMatched a2 := by
      rw [categoriesMatched]
      have hmem : c ∈ CATEGORIES.filter (fun c => decide (0 < catMatches c a2)) :=
        List.mem_filter.mpr ⟨hc, by simpa using hcm⟩
      have := List.ne_nil_of_mem hmem
      rw [← List.length_pos] at this
      omega
    have hreq2 : hasRequiredFields a2 = true := by
      rw [hasRequiredFields]
      have ht2 : truthy a2.title = true := h1
      have hc2 : truthy a2.content = true := by
        show (!(pyGet a.content [] ++ str " " ++ k).isEmpty) = true
        rw [List.append_assoc]
        cases pyGet a.content [] <;> rfl
      rw [ht2, hc2]
      rfl
    rw [keeps, hreq2]
    simp only [Bool.true_and, Bool.or_eq_true, decide_eq_true_eq]
    exact Or.inl hcats

/-- Concrete article for the C4 witness: no taxonomy matches at all. -/
def w4Article : Article :=
  { blankArticle with title := some (str "x"), content := some (str "zzz qqq") }

/-- Witness for C4: the article fails retention, and appending the
taxonomy keyword `llm` makes it pass. -/
theorem keyword_retention_witness :
    truthy w4Article.title = true
    ∧ keeps w4Article = false
    ∧ keeps { w4Article with
        content := some (pyGet w4Article.content [] ++ str " " ++ str "llm") }
        = true := by
  refine ⟨by decide, by decide, ?_⟩
  exact (keyword_retention w4Article (by decide) (Or.inl (by decide))).2
    (CATEGORIES.get ⟨1, by decide⟩) (by decide) (str "llm") (by decide) (by decide)

/-! ## C6: category assignment -/

theorem le_foldl_max (l : List Nat) : ∀ i : Nat, i ≤ l.foldl Nat.max i := by
  induction l with
  | nil => intro i; exact Nat.le_refl i
  | cons x xs ih =>
    intro i
    exact Nat.le_trans (Nat.le_max_left i x) (ih (Nat.max i x))

theorem mem_le_foldl_max (l : List Nat) :
    ∀ i : Nat, ∀ x ∈ l, x ≤ l.foldl Nat.max i := by
  induction l with
  | nil => intro i x hx; exact absurd hx (List.not_mem_nil x)
  | cons y ys ih =>
    intro i x hx
    rw [List.foldl_cons]
    rcases List.mem_cons.mp hx with hx | hx
    · subst hx
      exact Nat.le_trans (Nat.le_max_right i x) (le_foldl_max ys (Nat.max i x))
    · exact ih (Nat.max i y) x hx

theorem foldl_max_eq_or_mem (l : List Nat) :
    ∀ i : Nat, l.foldl Nat.max i = i ∨ l.foldl Nat.max i ∈ l := by
  induction l with
  | nil => intro i; exact Or.inl rfl
  | cons x xs ih =>
    intro i
    rw [List.foldl_cons]
    rcases ih (Nat.max i x) with h | h
    · rcases Nat.le_total i x with hle | hle
      · rw [h, show Nat.max i x = x from Nat.max_eq_right hle]
        exact Or.inr (List.mem_cons_self x xs)
      · rw [h, show Nat.max i x = i from Nat.max_eq_left hle]
        exact Or.inl rfl
    · exact Or.inr (List.mem_cons_of_mem x h)

theorem find?_first {α : Type} (p : α → Bool) :
    ∀ (l : List α) (c : α), l.find? p = some c →
      ∃ i, ∃ h : i < l.length, l.get ⟨i, h⟩ = c ∧ p c = true ∧
        ∀ j, ∀ hj : j < l.length, j < i → p (l.get ⟨j, hj⟩) = false := by
  intro l
  induction l with
  | nil => intro c h; exact absurd h (by simp)
  | cons x xs ih =>
    intro c h
    rw [List.find?_cons] at h
    rcases hp : p x with _ | _
    · rw [hp] at h
      obtain ⟨i, hi, hg, hpc, hfirst⟩ := ih c h
      refine ⟨i + 1, Nat.succ_lt_succ hi, hg, hpc, ?_⟩
      intro j hj hji
      match j with
      | 0 => exact hp
      | j + 1 =>
        exact hfirst j (Nat.lt_of_succ_lt_succ hj) (Nat.lt_of_succ_lt_succ hji)
    · rw [hp] at h
      refine ⟨0, Nat.succ_pos xs.length, ?_, ?_, ?_⟩
      · exact Option.some_inj.mp h
      · exact (Option.some_inj.mp h) ▸ hp
      · intro j hj hji
        exact absurd hji (Nat.not_lt_zero j)

/-- C6.  Category assignment always yields one of the taxonomy
categories; every per-category score is bounded by the maximum; when all
scores are zero the default `INDUSTRY_AND_MARKET` is returned; and when
the maximum is positive the assigned category is the first one in
taxonomy declaration order attaining the maximum (declaration-order
tie-break, weights: 1 per keyword match and 2 per url-pattern match by
definition of `catScore`). -/
theorem assign_category_max (a : Article) :
    assign_category a ∈ categoryNames
    ∧ ((∀ c ∈ CATEGORIES, catScore c a = 0) →
        assign_category a = str "INDUSTRY_AND_MARKET")
    ∧ (∀ c ∈ CATEGORIES, catScore c a ≤ maxCatScore a)
    ∧ (0 < maxCatScore a →
        ∃ i, ∃ h : i < CATEGORIES.length,
          (CATEGORIES.get ⟨i, h⟩).name = assign_category a
          ∧ catScore (CATEGORIES.get ⟨i, h⟩) a = maxCatScore a
          ∧ ∀ j, ∀ hj : j < CATEGORIES.length, j < i →
              catScore (CATEGORIES.get ⟨j, hj⟩) a ≠ maxCatScore a) := by
  have hbound : ∀ c ∈ CATEGORIES, catScore c a ≤ maxCatScore a := by
    intro c hc
    exact mem_le_foldl_max _ 0 _ (List.mem_map.mpr ⟨c, hc, rfl⟩)
  have hzero : (∀ c ∈ CATEGORIES, catScore c a = 0) → maxCatScore a = 0 := by
    intro hall
    rcases foldl_max_eq_or_mem (CATEGORIES.map (fun c => catScore c a)) 0 with h | h
    · exact h
    · obtain ⟨c, hc, hce⟩ := List.mem_map.mp h
      rw [maxCatScore, ← hce]
      exact hall c hc
  have hfind : 0 < maxCatScore a →
      ∃ c, CATEGORIES.find? (fun c => catScore c a == maxCatScore a) = some c := by
    intro hpos
    rcases foldl_max_eq_or_mem (CATEGORIES.map (fun c => catScore c a)) 0 with h | h
    · rw [maxCatScore] at hpos
      omega
    · obtain ⟨c, hc, hce⟩ := List.mem_map.mp h
      rcases hf : CATEGORIES.find? (fun c => catScore c a == maxCatScore a) with _ | c2
      · rw [List.find?_eq_none] at hf
        have hce2 : catScore c a = maxCatScore a := hce
        have hcontr : (catScore c a == maxCatScore a) = true := by
          rw [hce2]
          exact beq_self_eq_true _
        exact absurd hcontr (by simpa using hf c hc)
      · exact ⟨c2, rfl⟩
  have hassignPos : ∀ c, CATEGORIES.find? (fun c => catScore c a == maxCatScore a)
      = some c → 0 < maxCatScore a → assign_category a = c.name := by
    intro c hc hpos
    simp only [assign_category]
    rw [if_pos hpos, hc]
  have hassignZero : ¬ 0 < maxCatScore a →
      assign_category a = str "INDUSTRY_AND_MARKET" := by
    intro hpos
    simp only [assign_category]
    rw [if_neg hpos]
  refine ⟨?_, ?_, hbound, ?_⟩
  · by_cases hpos : 0 < maxCatScore a
    · obtain ⟨c, hc⟩ := hfind hpos
      rw [hassignPos c hc hpos]
      exact List.mem_map.mpr ⟨c, List.mem_of_find?_eq_some hc, rfl⟩
    · rw [hassignZero hpos]
      decide
  · intro hall
    exact hassignZero (by have hm := hzero hall; omega)
  · intro hpos
    obtain ⟨c, hc⟩ := hfind hpos
    have hassign : assign_category a = c.name := hassignPos c hc hpos
    obtain ⟨i, hi, hg, hpc, hfirst⟩ := find?_first _ CATEGORIES c hc
    refine ⟨i, hi, by rw [hg, hassign], ?_, ?_⟩
    · rw [hg]
      have h2 : (catScore c a == maxCatScore a) = true := hpc
      exact eq_of_beq h2
    · intro j hj hji
      have h4 : (catScore (CATEGORIES.get ⟨j, hj⟩) a == maxCatScore a) = false :=
        hfirst j hj hji
      intro hEq
      rw [hEq, beq_self_eq_true] at h4
      exact Bool.noConfusion h4

/-- Concrete article for the C6 witness: one keyword match each in the
first two taxonomy categories, a tie resolved by declaration order. -/
def w6Article : Article :=
  { blankArticle with
    title := some (str "x")
    content := some (str "wow agent and llm here") }

/-- Witness for C6: the score tie resolves to the first-declared
category. -/
theorem assign_category_max_witness :
    0 < maxCatScore w6Article
    ∧ assign_category w6Article ∈ categoryNames
    ∧ catScore (CATEGORIES.get ⟨0, by decide⟩) w6Article ≤ maxCatScore w6Article
    ∧ assign_category w6Article = str "TOOLS_AND_FRAMEWORKS" := by
  have h := assign_category_max w6Article
  exact ⟨by decide, h.1, h.2.2.1 _ (by decide), by decide⟩

/-! ## C1: the per-bucket ranking gate and the saved-calls counter -/

theorem rank_articles_none {α : Type} (articles : List α) (maxA : Nat)
    (h : ¬ articles.length ≤ maxA) :
    rank_articles articles none maxA = articles.take maxA := by
  unfold rank_articles
  rw [if_neg h]

/-- C1.  Over any bucket list, the saved-calls counter counts exactly
the buckets of size at most 5; pairing results with their input buckets,
the ranking agent is invoked on a bucket iff its size exceeds 5; a
bucket of size at most 5 passes through unchanged; the result for an oversized bucket
is the output of the ranking agent; and a 6-article bucket whose
ranking backend fails is reduced to exactly its first 5 articles. -/
theorem rankingStage_gate {α : Type} (backend : List α → Option (List Int))
    (buckets : List (List α)) :
    (rankingStage backend buckets).2
        = (buckets.filter (fun b => decide (b.length ≤ 5))).length
    ∧ (rankingStage backend buckets).1.length = buckets.length
    ∧ ∀ p ∈ ((rankingStage backend buckets).1.zip buckets),
        (p.1.2 = true ↔ 5 < p.2.length)
        ∧ (p.2.length ≤ 5 → p.1.1 = p.2)
        ∧ (5 < p.2.length → p.1.1 = rank_articles p.2 (backend p.2) 5)
        ∧ (p.2.length = 6 → backend p.2 = none → p.1.1.length = 5) := by
  induction buckets with
  | nil => exact ⟨rfl, rfl, by simp⟩
  | cons b bs ih =>
    rw [rankingStage]
    by_cases hb : 5 < b.length
    · rw [if_pos hb]
      refine ⟨?_, by simpa using ih.2.1, ?_⟩
      · rw [List.filter_cons, if_neg (by simpa using Nat.not_le.mpr hb)]
        exact ih.1
      · intro p hp
        rcases List.mem_cons.mp (by simpa [List.zip_cons_cons] using hp) with hp | hp

        · subst hp
          refine ⟨by simpa using hb, fun hle => absurd hb (Nat.not_lt.mpr hle),
            fun _ => rfl, ?_⟩
          intro h6 hnone
          rw [hnone, rank_articles_none _ _ (by omega), List.length_take]
          omega
        · exact ih.2.2 p hp
    · rw [if_neg hb]
      refine ⟨?_, by simpa using ih.2.1, ?_⟩
      · rw [List.filter_cons, if_pos (by simpa using Nat.not_lt.mp hb)]
        simpa using ih.1
      · intro p hp
        rcases List.mem_cons.mp (by simpa [List.zip_cons_cons] using hp) with hp | hp
        · subst hp
          refine ⟨by simpa using hb, fun _ => rfl,
            fun hlt => absurd hlt hb, ?_⟩
          intro h6 _
          exact absurd (h6 ▸ Nat.not_lt.mp hb) (by omega)
        · exact ih.2.2 p hp

/-- Witness for C1 at two concrete buckets (sizes 6 and 1): one ranking
invocation, one saved call, and the size-6 bucket cut to 5 articles on
backend failure. -/
theorem rankingStage_gate_witness :
    (rankingStage (fun _ => (none : Option (List Int))) [[0, 1, 2, 3, 4, 5], [(9 : Nat)]]).2 = 1
    ∧ ((rankingStage (fun _ => (none : Option (List Int)))
        [[0, 1, 2, 3, 4, 5], [(9 : Nat)]]).1.map Prod.snd) = [true, false]
    ∧ (rank_articles ([0, 1, 2, 3, 4, 5] : List Nat) none 5).length = 5 := by
  have h := rankingStage_gate (fun _ => (none : Option (List Int)))
    [[0, 1, 2, 3, 4, 5], [(9 : Nat)]]
  have h5 := (h.2.2 ((rank_articles ([0, 1, 2, 3, 4, 5] : List Nat) none 5, true),
    ([0, 1, 2, 3, 4, 5] : List Nat)) (by decide)).2.2.2 (by decide) rfl
  exact ⟨h.1.trans (by decide), by decide, h5⟩

/-! ## C2: index handling of the ranking stage -/

/-- C2 counterexample.  The claim says indices outside `0..len-1` are
discarded.  On six articles with backend response `[-1, 0, 1, 2, 3]`
the code does not discard `-1`: Python indexing selects the last
article, so the output differs from the spec contract.  With response
`[10, 0, 1, 2, 3, 4]` the code truncates to five indices before
discarding `10`, returning four articles although five valid indices
were present. -/
theorem rank_articles_discard_counterexample :
    rank_articles ([0, 1, 2, 3, 4, 5] : List Nat) (some [-1, 0, 1, 2, 3]) 5
        = [5, 0, 1, 2, 3]
    ∧ rank_articles_specContract ([0, 1, 2, 3, 4, 5] : List Nat)
        (some [-1, 0, 1, 2, 3]) 5 = [0, 1, 2, 3]
    ∧ rank_articles ([0, 1, 2, 3, 4, 5] : List Nat) (some [-1, 0, 1, 2, 3]) 5
        ≠ rank_articles_specContract ([0, 1, 2, 3, 4, 5] : List Nat)
            (some [-1, 0, 1, 2, 3]) 5
    ∧ rank_articles ([0, 1, 2, 3, 4, 5] : List Nat) (some [10, 0, 1, 2, 3, 4]) 5
        = [0, 1, 2, 3]
    ∧ rank_articles_specContract ([0, 1, 2, 3, 4, 5] : List Nat)
        (some [10, 0, 1, 2, 3, 4]) 5 = [0, 1, 2, 3, 4] := by
  decide

theorem rank_articles_some {α : Type} (articles : List α) (idxs : List Int)
    (maxA : Nat) (h : ¬ articles.length ≤ maxA) :
    rank_articles articles (some idxs) maxA =
      (if ((idxs.take maxA).filter
            (fun i => decide (i < (articles.length : Int)))).all
            (fun i => decide (-(articles.length : Int) ≤ i))
       then ((idxs.take maxA).filter
              (fun i => decide (i < (articles.length : Int)))).filterMap
              (fun i => pyIdx articles i)
       else articles.take maxA) := by
  unfold rank_articles
  rw [if_neg h]

theorem filterMap_congr_mem {α β : Type} (f g : α → Option β) :
    ∀ l : List α, (∀ x ∈ l, f x = g x) → l.filterMap f = l.filterMap g := by
  intro l
  induction l with
  | nil => intro _; rfl
  | cons x xs ih =>
    intro hfg
    rw [List.filterMap_cons, List.filterMap_cons,
      hfg x (List.mem_cons_self x xs), ih (fun y hy => hfg y (List.mem_cons_of_mem x hy))]

theorem length_filterMap_all_some {α β : Type} (f : α → Option β) :
    ∀ l : List α, (∀ x ∈ l, (f x).isSome) → (l.filterMap f).length = l.length := by
  intro l
  induction l with
  | nil => intro _; rfl
  | cons x xs ih =>
    intro hsome
    obtain ⟨b, hb⟩ := Option.isSome_iff_exists.mp (hsome x (List.mem_cons_self x xs))
    rw [List.filterMap_cons, hb]
    simp only [List.length_cons]
    rw [ih (fun y hy => hsome y (List.mem_cons_of_mem x hy))]

/-- C2 amended.  On an input longer than `max_articles`: a failed
backend yields the first `max_articles` articles in order; the output is
never longer than `max_articles`; when every returned index (after
truncation to the first `max_articles` of them) lies in `0..len-1`, the
output is exactly the articles at those indices — truncated, never
padded; indices `≥ len` are discarded but negative indices down to
`-len` are kept and select from the end Python-style; and an index below
`-len` surviving the `< len` filter makes the whole call fall back to
the first `max_articles` articles. -/
theorem rank_articles_amended {α : Type} (articles : List α) (idxs : List Int)
    (maxA : Nat) (h : maxA < articles.length) :
    (rank_articles articles none maxA = articles.take maxA)
    ∧ ((rank_articles articles (some idxs) maxA).length ≤ maxA)
    ∧ ((idxs.take maxA).all
          (fun i => decide (0 ≤ i) && decide (i < (articles.length : Int))) = true →
        rank_articles articles (some idxs) maxA
            = (idxs.take maxA).filterMap (fun i => articles[i.toNat]?)
        ∧ (rank_articles articles (some idxs) maxA).length = min maxA idxs.length)
    ∧ ((idxs.take maxA).all (fun i => decide (-(articles.length : Int) ≤ i)) = true →
        rank_articles articles (some idxs) maxA
          = ((idxs.take maxA).filter
              (fun i => decide (i < (articles.length : Int)))).filterMap
              (fun i => pyIdx articles i))
    ∧ ((∃ i ∈ (idxs.take maxA).filter
          (fun i => decide (i < (articles.length : Int))),
          i < -(articles.length : Int)) →
        rank_articles articles (some idxs) maxA = articles.take maxA) := by
  have hn : ¬ articles.length ≤ maxA := by omega
  refine ⟨rank_articles_none articles maxA hn, ?_, ?_, ?_, ?_⟩
  · rw [rank_articles_some articles idxs maxA hn]
    split
    · calc (((idxs.take maxA).filter _).filterMap _).length
          ≤ ((idxs.take maxA).filter
              (fun i => decide (i < (articles.length : Int)))).length :=
            List.length_filterMap_le _ _
        _ ≤ (idxs.take maxA).length := List.length_filter_le _ _
        _ ≤ maxA := by rw [List.length_take]; exact Nat.min_le_left _ _
    · rw [List.length_take]
      exact Nat.min_le_left _ _
  · intro hall
    have hallMem : ∀ i ∈ idxs.take maxA, 0 ≤ i ∧ i < (articles.length : Int) := by
      intro i hi
      have := List.all_eq_true.mp hall i hi
      simpa using this
    have hkept : (idxs.take maxA).filter
        (fun i => decide (i < (articles.length : Int))) = idxs.take maxA := by
      apply List.filter_eq_self.mpr
      intro i hi
      simpa using (hallMem i hi).2
    have hguard : ((idxs.take maxA).filter
        (fun i => decide (i < (articles.length : Int)))).all
        (fun i => decide (-(articles.length : Int) ≤ i)) = true := by
      rw [hkept]
      apply List.all_eq_true.mpr
      intro i hi
      have := (hallMem i hi).1
      simp
      omega
    rw [rank_articles_some articles idxs maxA hn, if_pos hguard, hkept]
    constructor
    · apply filterMap_congr_mem
      intro i hi
      rw [pyIdx, if_pos (hallMem i hi).1]
    · rw [length_filterMap_all_some, List.length_take]
      intro i hi
      have h1 := (hallMem i hi).1
      have h2 := (hallMem i hi).2
      have hlt : i.toNat < articles.length := by omega
      rw [pyIdx, if_pos h1, List.getElem?_eq_getElem hlt]
      rfl
  · intro hall
    have hguard : ((idxs.take maxA).filter
        (fun i => decide (i < (articles.length : Int)))).all
        (fun i => decide (-(articles.length : Int) ≤ i)) = true := by
      apply List.all_eq_true.mpr
      intro i hi
      exact List.all_eq_true.mp hall i (List.mem_of_mem_filter hi)
    rw [rank_articles_some articles idxs maxA hn, if_pos hguard]
  · rintro ⟨i, hi, hlt⟩
    rcases hg : ((idxs.take maxA).filter
        (fun i => decide (i < (articles.length : Int)))).all
        (fun i => decide (-(articles.length : Int) ≤ i)) with _ | _
    · rw [rank_articles_some articles idxs maxA hn, if_neg (by rw [hg]; simp)]
    · exfalso
      have := List.all_eq_true.mp hg i hi
      simp at this
      omega

/-- Witness for C2 amended, at six articles with a valid two-index
response and with a failing backend. -/
theorem rank_articles_amended_witness :
    5 < ([0, 1, 2, 3, 4, 5] : List Nat).length
    ∧ rank_articles ([0, 1, 2, 3, 4, 5] : List Nat) none 5 = [0, 1, 2, 3, 4]
    ∧ rank_articles ([0, 1, 2, 3, 4, 5] : List Nat) (some [4, 2]) 5 = [4, 2] := by
  have h := rank_articles_amended ([0, 1, 2, 3, 4, 5] : List Nat) [4, 2] 5 (by decide)
  refine ⟨by decide, h.1.trans (by decide), ?_⟩
  exact ((h.2.2.1 (by decide)).1).trans (by decide)

/-! ## C3: storage-layer errors in the categorization stage -/

/-- Concrete article shared by the stage-executor counterexamples and
witnesses. -/
def cArticle : Article :=
  { blankArticle with title := some (str "t"), summary := some (str "s") }

/-- C3 counterexample.  The claim says storage-layer errors on lookup
are non-fatal and degrade to a miss.  In `categorize_articles` the
`_check_cache` call sits outside the `try`/`except`, so a lookup error
propagates and the batch aborts (`err`) instead of returning an
annotated batch — even with a working backend and a working write. -/
theorem categorize_lookup_error_aborts :
    categorizeBatch (fun _ => StoreResult.err)
        (fun _ => some (some (str "TOOLS_AND_FRAMEWORKS"), some (str "ok")))
        (fun _ _ _ => StoreResult.ok ()) [cArticle] = StoreResult.err := by
  rfl

/-- C3 amended.  Storage errors raised by the cache write are caught by
the per-document `try`/`except`: the article gets the fallback
annotation, the loop continues, and a batch whose writes all fail still
completes with every article annotated.  Storage errors raised by the
cache lookup, however, escape `categorize_articles` and abort the run. -/
theorem categorize_storage_error_amended
    (lookup : Str → StoreResult (Option (Str × Str)))
    (backend : Article → Option (Option Str × Option Str))
    (save : Str → Str → Str → StoreResult Unit)
    (a : Article) (articles : List Article)
    (hl : lookup (catCacheKey a) = StoreResult.err) :
    categorizeOne lookup backend save a = StoreResult.err
    ∧ categorizeOne (fun _ => StoreResult.ok none) backend
        (fun _ _ _ => StoreResult.err) a
        = StoreResult.ok ({ a with
            category := some FALLBACK_CATEGORY
            category_justification := some (str "Error in categorization") },
          false, true)
    ∧ ∃ l : List Article,
        categorizeBatch (fun _ => StoreResult.ok none) backend
          (fun _ _ _ => StoreResult.err) articles = StoreResult.ok l
        ∧ l.length = articles.length := by
  refine ⟨?_, ?_, ?_⟩
  · rw [categorizeOne, hl]
  · rw [categorizeOne]
    rcases backend a with _ | p
    · rfl
    · rfl
  · induction articles with
    | nil => exact ⟨[], rfl, rfl⟩
    | cons b bs ih =>
      obtain ⟨l, hleq, hlen⟩ := ih
      refine ⟨{ b with
          category := some FALLBACK_CATEGORY
          category_justification := some (str "Error in categorization") } :: l,
        ?_, by simp [hlen]⟩
      rw [categorizeBatch]
      have hone : categorizeOne (fun _ => StoreResult.ok none) backend
          (fun _ _ _ => StoreResult.err) b
          = StoreResult.ok ({ b with
              category := some FALLBACK_CATEGORY
              category_justification := some (str "Error in categorization") },
            false, true) := by
        rw [categorizeOne]
        rcases backend b with _ | p
        · rfl
        · rfl
      rw [hone, hleq]

/-- Witness for C3 amended: a concrete always-failing lookup aborts the
stage on a concrete article. -/
theorem categorize_storage_error_amended_witness :
    (fun _ : Str => (StoreResult.err : StoreResult (Option (Str × Str))))
        (catCacheKey cArticle) = StoreResult.err
    ∧ categorizeOne (fun _ => StoreResult.err) (fun _ => none)
        (fun _ _ _ => StoreResult.ok ()) cArticle = StoreResult.err :=
  ⟨rfl, (categorize_storage_error_amended (fun _ => StoreResult.err)
    (fun _ => none) (fun _ _ _ => StoreResult.ok ()) cArticle [] rfl).1⟩

/-! ## C7: empty batches terminate the orchestrator early -/

/-- C7.  An empty article set at ingest, after the keyword prefilter, or
after the relevance stage ends the run (as a plain return, a no-op
completion): none of overview, categorization, ranking, summarization or
distribution appears in the invocation trace. -/
theorem pipeline_empty_early_exit (fetched : List Article)
    (relevanceAgent : List Article → List Article)
    (h : fetched = [] ∨ filter_articles fetched = []
        ∨ relevanceAgent (filter_articles fetched) = []) :
    StageTag.overview ∉ run_pipeline fetched relevanceAgent
    ∧ StageTag.categorize ∉ run_pipeline fetched relevanceAgent
    ∧ StageTag.ranking ∉ run_pipeline fetched relevanceAgent
    ∧ StageTag.summarize ∉ run_pipeline fetched relevanceAgent
    ∧ StageTag.distribute ∉ run_pipeline fetched relevanceAgent := by
  have htrace : run_pipeline fetched relevanceAgent = [.ingest]
      ∨ run_pipeline fetched relevanceAgent = [.ingest, .keywordFilter]
      ∨ run_pipeline fetched relevanceAgent
          = [.ingest, .keywordFilter, .relevanceStage] := by
    rw [run_pipeline]
    by_cases h1 : fetched.isEmpty
    · rw [if_pos h1]
      exact Or.inl rfl
    · rw [if_neg h1]
      by_cases h2 : (filter_articles fetched).isEmpty
      · rw [if_pos h2]
        exact Or.inr (Or.inl rfl)
      · rw [if_neg h2]
        by_cases h3 : (relevanceAgent (filter_articles fetched)).isEmpty
        · rw [if_pos h3]
          exact Or.inr (Or.inr rfl)
        · exfalso
          rcases h with h | h | h
          · exact h1 (by simp [h])
          · exact h2 (by simp [h])
          · exact h3 (by simp [h])
  rcases htrace with ht | ht | ht <;> rw [ht] <;> exact ⟨by decide, by decide,
    by decide, by decide, by decide⟩

/-- Witness for C7: an empty fetch runs only the ingest stage. -/
theorem pipeline_empty_early_exit_witness :
    ([] : List Article) = []
    ∧ StageTag.overview ∉ run_pipeline [] (fun l => l) :=
  ⟨rfl, (pipeline_empty_early_exit [] (fun l => l) (Or.inl rfl)).1⟩

/-! ## C8: a cache hit never invokes the backend -/

/-- C8.  When the cache lookup returns a stored result, both stage
executors record a hit, apply the cached result to the annotation
fields of the article, and return with the backend-invocation flag `false`:
the backend branch is unreachable under the hit precondition (the
returned triple carries the annotated article, the hit flag, and the
backend-called flag). -/
theorem cache_hit_skips_backend
    (lookupC : Str → StoreResult (Option (Str × Str)))
    (bkC : Article → Option (Option Str × Option Str))
    (svC : Str → Str → Str → StoreResult Unit)
    (lookupR : Str → StoreResult (Option (Bool × Str)))
    (bkR : Article → Option (Option Bool × Option Str))
    (svR : Str → Bool → Str → StoreResult Unit)
    (a : Article) (cat just reason : Str) (isRel : Bool)
    (hC : lookupC (catCacheKey a) = StoreResult.ok (some (cat, just)))
    (hR : lookupR (relCacheKey a) = StoreResult.ok (some (isRel, reason))) :
    categorizeOne lookupC bkC svC a
      = StoreResult.ok ({ a with
          category := some cat
          category_justification := some just }, true, false)
    ∧ relevanceOne lookupR bkR svR a
      = StoreResult.ok
          ((if isRel then some { a with relevance_reason := some reason }
            else none), true, false) := by
  constructor
  · rw [categorizeOne, hC]
  · rw [relevanceOne, hR]

/-- Witness for C8 at a concrete article and concrete warm caches. -/
theorem cache_hit_skips_backend_witness :
    (fun _ : Str => StoreResult.ok (some (str "TOOLS_AND_FRAMEWORKS", str "j")))
        (catCacheKey cArticle)
      = StoreResult.ok (some (str "TOOLS_AND_FRAMEWORKS", str "j"))
    ∧ categorizeOne
        (fun _ => StoreResult.ok (some (str "TOOLS_AND_FRAMEWORKS", str "j")))
        (fun _ => none) (fun _ _ _ => StoreResult.ok ()) cArticle
      = StoreResult.ok ({ cArticle with
          category := some (str "TOOLS_AND_FRAMEWORKS")
          category_justification := some (str "j") }, true, false) :=
  ⟨rfl, (cache_hit_skips_backend
    (fun _ => StoreResult.ok (some (str "TOOLS_AND_FRAMEWORKS", str "j")))
    (fun _ => none) (fun _ _ _ => StoreResult.ok ())
    (fun _ => StoreResult.ok (some (true, str "r")))
    (fun _ => none) (fun _ _ _ => StoreResult.ok ())
    cArticle (str "TOOLS_AND_FRAMEWORKS") (str "j") (str "r") true
    rfl rfl).1⟩

/-! ## C9: cache keys -/

/-- C9.  For any digest function, the cache key is a deterministic
function of the (stage, title, 500-character content prefix) tuple: two
articles agreeing on title and on the first 500 characters of their
summary-or-content get the same categorization key and the same
relevance key (whatever their other fields); and the digest preimages of
the two stages never coincide, since one starts with the stage prefix
`category` and the other with `relevance`. -/
theorem cache_key_deterministic (digest : Str → Str) (a b : Article)
    (ht : pyGet a.title [] = pyGet b.title [])
    (hc : (rawStageContent a).take 500 = (rawStageContent b).take 500) :
    digest (catCacheKey a) = digest (catCacheKey b)
    ∧ digest (relCacheKey a) = digest (relCacheKey b)
    ∧ ∀ t c t2 c2 : Str,
        cacheKeyText (str "category") t c ≠ cacheKeyText (str "relevance") t2 c2 := by
  refine ⟨?_, ?_, ?_⟩
  · rw [catCacheKey, catCacheKey, stageSummary, stageSummary, ht, hc]
  · rw [relCacheKey, relCacheKey, stageSummary, stageSummary, ht, hc]
  · intro t c t2 c2 he
    have h0 := congrArg List.head? he
    rw [show (cacheKeyText (str "category") t c).head? = (str "c").head? from rfl,
      show (cacheKeyText (str "relevance") t2 c2).head? = (str "r").head? from rfl]
      at h0
    exact absurd h0 (by decide)

/-- Articles for the C9 witness: same title and summary, different
content and link, hence the same cache keys. -/
def w9a : Article :=
  { blankArticle with
    title := some (str "t")
    summary := some (str "shared summary")
    content := some (str "one body") }

def w9b : Article :=
  { blankArticle with
    title := some (str "t")
    summary := some (str "shared summary")
    content := some (str "another body")
    link := some (str "https://example.org") }

/-- Witness for C9 with the identity digest. -/
theorem cache_key_deterministic_witness :
    pyGet w9a.title [] = pyGet w9b.title []
    ∧ (rawStageContent w9a).take 500 = (rawStageContent w9b).take 500
    ∧ (fun s : Str => s) (catCacheKey w9a) = (fun s : Str => s) (catCacheKey w9b)
    ∧ catCacheKey w9a ≠ relCacheKey w9a :=
  ⟨rfl, rfl, (cache_key_deterministic (fun s => s) w9a w9b rfl rfl).1,
    (cache_key_deterministic (fun s => s) w9a w9b rfl rfl).2.2
      (pyGet w9a.title []) (stageSummary w9a)
      (pyGet w9a.title []) (stageSummary w9a)⟩

/-! ## C10: the CacheTracker savings invariant -/

/-- C10 counterexample.  The claimed invariant
`estimated_savings = cache_hits * cost_per_call` is false of the float
code: with the cost literal `0.1` — the binary64 value
`3602879701896397 / 2^55` — three `record_hit` calls accumulate
`0.1 + 0.1 + 0.1 = 0.30000000000000004` (the third `+=` rounds the
exact sum up, ties-to-even), which differs from `3 * 0.1`. -/
theorem cache_tracker_rounding_counterexample :
    (applyOps (CacheTracker.init ⟨3602879701896397, 55⟩)
        [CacheOp.hit, CacheOp.hit, CacheOp.hit]).cache_hits = 3
    ∧ (applyOps (CacheTracker.init ⟨3602879701896397, 55⟩)
        [CacheOp.hit, CacheOp.hit, CacheOp.hit]).estimated_savings
        = ⟨5404319552844596, 54⟩
    ∧ (Dyadic.mk 5404319552844596 54).toRat
        ≠ 3 * (Dyadic.mk 3602879701896397 55).toRat := by
  refine ⟨by decide, by decide, ?_⟩
  simp only [Dyadic.toRat]
  norm_num

theorem applyOps_savings_amended (c : Dyadic) :
    ∀ (ops : List CacheOp) (t : CacheTracker) (k : Nat),
      t.cost_per_call = c → t.estimated_savings = fpIterAdd c k →
      (applyOps t ops).cache_hits = t.cache_hits + countHits ops
      ∧ (applyOps t ops).estimated_savings = fpIterAdd c (k + countHits ops) := by
  intro ops
  induction ops with
  | nil => intro t k _ h2; exact ⟨rfl, h2⟩
  | cons op ops ih =>
    intro t k h1 h2
    cases op with
    | hit =>
      rw [applyOps]
      have hstep := ih t.recordHit (k + 1) h1
        (by show fpAdd t.estimated_savings t.cost_per_call = fpAdd (fpIterAdd c k) c
            rw [h1, h2])
      have hh : t.recordHit.cache_hits = t.cache_hits + 1 := rfl
      refine ⟨?_, ?_⟩
      · rw [hstep.1, hh, countHits]
        omega
      · rw [hstep.2, countHits]
        exact congrArg (fpIterAdd c) (by omega)
    | miss =>
      rw [applyOps]
      have hstep := ih t.recordMiss k h1 h2
      have hh : t.recordMiss.cache_hits = t.cache_hits := rfl
      exact ⟨by rw [hstep.1, hh, countHits], by rw [hstep.2, countHits]⟩

/-- C10 amended.  After replaying any sequence of
`record_hit`/`record_miss` calls on a tracker built with the binary64
cost `c`, the hit counter equals the number of `record_hit` calls and
`estimated_savings` equals the IEEE-rounded accumulation of `c`, one
rounded addition per hit (equal to `cache_hits * c` only when no
partial sum rounds, not in general); each `record_hit` adds exactly one
hit and performs one rounded addition of `c` to the savings, and
`record_miss` changes neither the savings nor the hit count. -/
theorem cache_tracker_savings_amended (c : Dyadic) (ops : List CacheOp) :
    (applyOps (CacheTracker.init c) ops).cache_hits = countHits ops
    ∧ (applyOps (CacheTracker.init c) ops).estimated_savings
        = fpIterAdd c (countHits ops)
    ∧ (∀ t : CacheTracker,
        t.recordHit.cache_hits = t.cache_hits + 1
        ∧ t.recordHit.estimated_savings = fpAdd t.estimated_savings t.cost_per_call
        ∧ t.recordHit.cost_per_call = t.cost_per_call
        ∧ t.recordMiss.estimated_savings = t.estimated_savings
        ∧ t.recordMiss.cache_hits = t.cache_hits) := by
  have h := applyOps_savings_amended c ops (CacheTracker.init c) 0 rfl rfl
  refine ⟨?_, ?_, fun t => ⟨rfl, rfl, rfl, rfl, rfl⟩⟩
  · rw [h.1]
    exact Nat.zero_add _
  · rw [h.2]
    exact congrArg (fpIterAdd c) (Nat.zero_add _)

/-- Witness for C10 amended, at the exactly-representable cost `0.25`
(where no addition rounds, so the accumulated savings do equal
`hits * cost`) over a concrete hit/miss sequence. -/
theorem cache_tracker_savings_amended_witness :
    (applyOps (CacheTracker.init ⟨1, 2⟩)
        [CacheOp.hit, CacheOp.miss, CacheOp.hit, CacheOp.hit]).cache_hits = 3
    ∧ (applyOps (CacheTracker.init ⟨1, 2⟩)
        [CacheOp.hit, CacheOp.miss, CacheOp.hit, CacheOp.hit]).estimated_savings
        = fpIterAdd ⟨1, 2⟩ 3
    ∧ (fpIterAdd (⟨1, 2⟩ : Dyadic) 3).toRat = 3 * (Dyadic.mk 1 2).toRat := by
  have h := cache_tracker_savings_amended ⟨1, 2⟩
    [CacheOp.hit, CacheOp.miss, CacheOp.hit, CacheOp.hit]
  refine ⟨h.1.trans (by decide), h.2.1.trans (congrArg _ (by decide)), ?_⟩
  rw [show fpIterAdd (⟨1, 2⟩ : Dyadic) 3 = ⟨3, 2⟩ from by decide]
  simp only [Dyadic.toRat]
  norm_num

end RSS
